import Mathlib

/-!
Verification of the compilation-orchestration module of `rustbininfo`
(`src/rustbininfo/compilation.py`), via a shallow embedding in Lean.

Python dictionaries are modelled as association lists with unique keys,
file contents as lists of lines, filesystem trees as an inductive type,
and the external world (HTTP probe, subprocess runs, artifact
collection) as explicit oracle functions carried in a `World` record.
-/

namespace RustBinInfo

/-! ## String helpers (models of the Python string operations used) -/

/-- Model of Python `"\\" in k`: the string contains a backslash. -/
def hasBS (s : String) : Bool :=
  s.data.any (fun c => c == '\\')

/-- Model of Python `k.replace("\\", "")`: remove every backslash. -/
def stripBS (s : String) : String :=
  ⟨s.data.filter (fun c => c != '\\')⟩

/-- Model of Python `line.strip()`: drop whitespace on both ends. -/
def pyStrip (s : String) : String :=
  ⟨((s.data.dropWhile Char.isWhitespace).reverse.dropWhile Char.isWhitespace).reverse⟩

/-- Index of the last occurrence of a dot, like Python `name.rfind('.')`
(`none` when there is no dot). -/
def rfindDot : List Char → Option Nat
  | [] => none
  | c :: rest =>
    match rfindDot rest with
    | some j => some (j + 1)
    | none => if c = '.' then some 0 else none

/-- Model of `pathlib.PurePath(name).suffix`: the extension of the final
component, computed from the last dot of the name; empty when the last dot
is the first character, the last character, or absent. -/
def pathSuffix (s : String) : String :=
  match rfindDot s.data with
  | none => ""
  | some i => if 0 < i ∧ i + 1 < s.data.length then ⟨s.data.drop i⟩ else ""

/-- Whether `pat` occurs at the head of `l`. -/
def leadMatch : List Char → List Char → Bool
  | [], _ => true
  | _ :: _, [] => false
  | a :: as, b :: bs => a == b && leadMatch as bs

/-- Whether `pat` occurs contiguously anywhere in `l`. -/
def hasSub (pat : List Char) : List Char → Bool
  | [] => pat.isEmpty
  | c :: rest => leadMatch pat (c :: rest) || hasSub pat rest

/-- Model of a `glob` match against the pattern `*mid*` for one directory
entry name: `mid` must occur in the name, and glob never matches hidden
entries (a leading dot is not matched by `*`). -/
def globStar (mid : String) (name : String) : Bool :=
  !(leadMatch ['.'] name.data) && hasSub mid.data name.data

/-- The file name ends with the characters `.so`. -/
def endsDotSo (n : String) : Bool :=
  leadMatch ['o', 's', '.'] n.data.reverse

/-! ## Python dict model: association lists with unique keys -/

/-- Lookup of a key, first binding wins (a Python dict has unique keys). -/
def dictLookup {α : Type} : List (String × α) → String → Option α
  | [], _ => none
  | p :: rest, k => if p.1 = k then some p.2 else dictLookup rest k

/-- Model of Python `d[k] = v`: update the binding in place when the key
is present, append it otherwise. -/
def dictSet {α : Type} : List (String × α) → String → α → List (String × α)
  | [], k, v => [(k, v)]
  | p :: rest, k, v => if p.1 = k then (k, v) :: rest else p :: dictSet rest k v

/-- Model of Python `del d[k]`: drop the binding of the key. -/
def dictDel {α : Type} : List (String × α) → String → List (String × α)
  | [], _ => []
  | p :: rest, k => if p.1 = k then dictDel rest k else p :: dictDel rest k

/-- Model of Python `d | e` (and `d |= e`): the keys of `d` in order, each
bound to the value from `e` when `e` also binds it, followed by the
bindings of `e` whose keys are new. -/
def dictMerge {α : Type} (d e : List (String × α)) : List (String × α) :=
  (d.map fun p =>
    match dictLookup e p.1 with
    | some v => (p.1, v)
    | none => p)
  ++ e.filter (fun q => (dictLookup d q.1).isNone)

/-- Both dict arguments bind no common key. -/
def disjointKeys {α : Type} (d e : List (String × α)) : Bool :=
  d.all (fun p => (dictLookup e p.1).isNone) &&
  e.all (fun q => (dictLookup d q.1).isNone)

/-! ## TOML values -/

/-- A TOML value as loaded by `toml.load`: the shapes the module touches. -/
inductive TomlVal where
  | str (s : String)
  | int (n : Int)
  | bool (b : Bool)
  | table (t : List (String × TomlVal))
  | arr (l : List TomlVal)

/-- Python truthiness of a loaded TOML value, used by
`if lib_template.get('lib', None):`. -/
def TomlVal.truthy : TomlVal → Bool
  | .str s => s != ""
  | .int n => n != 0
  | .bool b => b
  | .table t => !t.isEmpty
  | .arr l => !l.isEmpty

/-- A loaded TOML document: a top-level Python dict. -/
abbrev Dict := List (String × TomlVal)

/-- One step of the corner-case loop of `setup_toml`: for a second-level
key `p.1` (known to contain a backslash), read its current value, delete
the binding, and re-bind the value under the key with backslashes removed.
The `none` branch is unreachable for a dict with unique keys, because a
snapshot backslash key is never deleted before its own step. -/
def sanStep (cur : List (String × TomlVal)) (p : String × TomlVal) :
    List (String × TomlVal) :=
  match dictLookup cur p.1 with
  | some val => dictSet (dictDel cur p.1) (stripBS p.1) val
  | none => cur

/-- Model of the corner-case loop of `setup_toml`, restricted to one
second-level table: iterate over a snapshot of the bindings whose key
contains a backslash and apply `sanStep` for each, in order. -/
def sanitizeTable (t : List (String × TomlVal)) : List (String × TomlVal) :=
  (t.filter (fun p => hasBS p.1)).foldl sanStep t

/-- Model of the whole corner-case loop of `setup_toml`: every top-level
value that is a table gets its second-level backslash keys sanitized;
other values (and all top-level keys) are left alone. -/
def sanitizeTop (d : Dict) : Dict :=
  d.map fun p =>
    match p.2 with
    | TomlVal.table t => (p.1, TomlVal.table (sanitizeTable t))
    | v => (p.1, v)

/-- The dict transformation performed by `setup_toml` on the loaded
manifest: `crate_toml |= custom_options` followed by the backslash
corner-case loop. File IO and `remove_no_std_from_project` are modelled
separately. -/
def setup_toml_dict (manifest template : Dict) : Dict :=
  sanitizeTop (dictMerge manifest template)

/-- Keys of a second-level table, used to observe `setup_toml_dict`. -/
def topTableKeys (d : Dict) (x : String) : List String :=
  match dictLookup d x with
  | some (TomlVal.table t) => t.map Prod.fst
  | _ => []

/-- A concrete manifest whose only top-level key binds a table with a
backslash key. -/
def cexM3 : Dict :=
  [("package", TomlVal.table [("a\\b", TomlVal.str "v")])]

/-- A concrete manifest with a backslash in a top-level key name. -/
def cexM5 : Dict := [("a\\b", TomlVal.str "v")]

/-- A concrete second-level table with a backslash key, as in the
`sha2` manifest the source comments point at. -/
def tEx : List (String × TomlVal) :=
  [("a\\b", TomlVal.str "1"), ("c", TomlVal.str "2")]

/-- A concrete manifest binding `dependencies` to `tEx`. -/
def mEx : Dict := [("dependencies", TomlVal.table tEx)]

/-- Every second-level key of every top-level table is backslash-free. -/
def noNestedBS (d : Dict) : Bool :=
  d.all fun p =>
    match p.2 with
    | TomlVal.table t => t.all (fun q => !hasBS q.1)
    | _ => true

/-! ## Source-file patching (`remove_line`, `remove_no_std_from_project`) -/

/-- Model of `remove_line`: rewrite the file keeping every line whose
index differs from `line_nb`. -/
def remove_line (lines : List String) (n : Nat) : List String :=
  ((lines.enum.filter fun p => p.1 ≠ n).map Prod.snd)

/-- A line consisting solely of the no-std directive, after stripping. -/
def isNoStdLine (line : String) : Bool :=
  pyStrip line == "#![no_std]"

/-- Model of the body of `remove_no_std_from_project` for one `.rs` file:
enumerate the directive line indices of the file as first read, then call
`remove_line` on the evolving file for each such index, in order. -/
def remove_no_std_from_file (lines : List String) : List String :=
  ((lines.enum.filter fun p => isNoStdLine p.2).map Prod.fst).foldl
    remove_line lines

/-! ## Build invocation and orchestration (`CompilationUnit`) -/

/-- Result of one `subprocess.run` of cargo. -/
structure BuildResult where
  returncode : Int
  stdout : String
  stderr : String
deriving DecidableEq

/-- The toolchain the unit compiles with. -/
structure Toolchain where
  version : String
  toolchain_name : String

/-- The crate fields that `compilation.py` reads. -/
structure Crate where
  name : String
  version : String
  features : List String
  repository : String

/-- The compilation context fields that `compilation.py` reads. -/
structure CompilationCtx where
  template : Dict
  lib : Bool
  profile : String
  env : List (String × String)

/-- The external world: the HTTP probe, the subprocess runner (working
directory and argument vector to build result), the artifact collector
for a project directory, and the default destination directory.
Filesystem paths are lists of path segments. -/
structure World where
  status : String → Nat
  run : List String → List String → BuildResult
  collect : List String → List String
  destDir : List String

/-- The cargo argument vector built by `_cargo_build`: the fixed head,
the verb-specific arguments, and, when the feature list is non-empty,
`--features` with the comma-joined list from which the sentinel features
`nightly` and `default` are filtered out. -/
def build_args (tc : Toolchain) (postVerb : List String)
    (features : List String) : List String :=
  let args := ["cargo", "+" ++ tc.version, "build", "--target",
    tc.toolchain_name] ++ postVerb
  if features.isEmpty then args
  else args ++ ["--features",
    String.intercalate ","
      (features.filter fun f => f != "nightly" && f != "default")]

/-- Model of `_cargo_build`: run cargo once; on success return; on
failure with a non-empty feature list, recurse on the feature list with
its first element removed; with no features left, return the failing
result. The first component records the feature list of every attempt,
in order; the second is the returned result. -/
def cargo_build (w : World) (tc : Toolchain) (cwd : List String)
    (postVerb : List String) :
    List String → List (List String) × BuildResult
  | [] =>
    let ret := w.run cwd (build_args tc postVerb [])
    if ret.returncode = 0 then ([[]], ret)
    else ([[]], ret)
  | f :: rest =>
    let ret := w.run cwd (build_args tc postVerb (f :: rest))
    if ret.returncode = 0 then ([f :: rest], ret)
    else
      let r := cargo_build w tc cwd postVerb rest
      ((f :: rest) :: r.1, r.2)

/-- The feature lists attempted by `_cargo_build`, in order. -/
def cargo_attempts (w : World) (tc : Toolchain) (cwd : List String)
    (postVerb : List String) (features : List String) : List (List String) :=
  (cargo_build w tc cwd postVerb features).1

/-- The profile argument chosen by `_compile_extra` and `_compile_lib`. -/
def profile_arg (ctx : CompilationCtx) : String :=
  if ctx.profile = "release" then "release" else "dev"

/-- Model of `_setup_repo`: probe the repository URL and return no path
on a 404; otherwise return the per-crate destination directory. The
clone and tag-checkout steps only affect the on-disk state, never the
returned path, and are not modelled. -/
def setup_repo (w : World) (crate : Crate) : Option (List String) :=
  if w.status crate.repository = 404 then none
  else some (w.destDir ++ [crate.name])

/-- The template used for the auxiliary (repository) build: a copy of
the context template with a truthy `lib` key deleted. -/
def lib_template_aux (ctx : CompilationCtx) : Dict :=
  match dictLookup ctx.template "lib" with
  | some v => if v.truthy then dictDel ctx.template "lib" else ctx.template
  | none => ctx.template

/-- The template used for the primary build: a copy of the context
template, with `lib = \x7b "crate-type": ["cdylib"] \x7d` injected when the
context asks for a library. -/
def lib_template_primary (ctx : CompilationCtx) : Dict :=
  if ctx.lib then
    dictSet ctx.template "lib"
      (TomlVal.table [("crate-type", TomlVal.arr [TomlVal.str "cdylib"])])
  else ctx.template

/-- The three verb-argument lists used by `_compile_extra`. -/
def extra_verbs (ctx : CompilationCtx) : List (List String) :=
  [["--tests", "--profile", profile_arg ctx],
   ["--benches", "--profile", profile_arg ctx],
   ["--examples", "--profile", profile_arg ctx]]

/-- Everything observable that `compile_crate` does, by category: the
URLs probed, the value `_setup_repo` returned, the `setup_toml` calls
(manifest path and template), the `_cargo_build` calls (working
directory, feature list, verb arguments), the cargo subprocess
invocations (working directory and argument vector), the directories
passed to `_get_result_files`, and the returned artifact list. -/
structure CompileTrace where
  probed : List String
  repoResult : Option (List String)
  patched : List (List String × Dict)
  buildCalls : List (List String × List String × List String)
  runs : List (List String × List String)
  collected : List (List String)
  results : List String

/-- The subprocess invocations performed by one `_cargo_build` call. -/
def call_runs (w : World) (tc : Toolchain) (cwd : List String)
    (postVerb : List String) (features : List String) :
    List (List String × List String) :=
  (cargo_attempts w tc cwd postVerb features).map
    fun fs => (cwd, build_args tc postVerb fs)

/-- Model of `compile_crate`: normalize the feature list (collapse to
`["full"]` when `full` is present), acquire the repository; when a
repository path came back, patch its manifest with the library-stripped
template, build tests, benches and examples, and collect its artifacts;
then unconditionally patch the primary manifest (injecting the `cdylib`
directive when in library mode), build the library and collect the
artifacts next to the primary manifest. -/
def compile_crate (w : World) (tc : Toolchain) (ctx : CompilationCtx)
    (crate : Crate) (toml_path : List String) : CompileTrace :=
  let features :=
    if crate.features.contains "full" then ["full"] else crate.features
  let repoOpt := setup_repo w crate
  let primaryPath := toml_path.dropLast
  let primVerb := ["--profile", profile_arg ctx]
  let auxPatched :=
    match repoOpt with
    | some rp => [(rp ++ ["Cargo.toml"], lib_template_aux ctx)]
    | none => []
  let auxCalls :=
    match repoOpt with
    | some rp => (extra_verbs ctx).map fun pv => (rp, features, pv)
    | none => []
  let auxRuns :=
    match repoOpt with
    | some rp => ((extra_verbs ctx).map fun pv =>
        call_runs w tc rp pv features).flatten
    | none => []
  let auxCollected :=
    match repoOpt with
    | some rp => [rp]
    | none => []
  let auxResults :=
    match repoOpt with
    | some rp => w.collect rp
    | none => []
  { probed := [crate.repository]
    repoResult := repoOpt
    patched := auxPatched ++ [(toml_path, lib_template_primary ctx)]
    buildCalls := auxCalls ++ [(primaryPath, features, primVerb)]
    runs := auxRuns ++ call_runs w tc primaryPath primVerb features
    collected := auxCollected ++ [primaryPath]
    results := auxResults ++ w.collect primaryPath }

/-! ## Artifact collection (`_get_result_files`) -/

/-- A filesystem entry: a plain file or a directory with its entries. -/
inductive FSEntry where
  | file (name : String)
  | dir (name : String) (children : List FSEntry)

/-- Name of a filesystem entry. -/
def FSEntry.name : FSEntry → String
  | .file n => n
  | .dir n _ => n

/-- The exception raised by a Python expression in `_get_result_files`. -/
inductive PyError where
  | indexError
  | attributeError
deriving DecidableEq

/-- The fixed denylist pruned from `directories[:]` during the walk. -/
def denylist : List String := [".fingerprint", "build", "deps"]

/-- The artifact filter: one of the two `seeked_files` routines accepts
the file name. The two routines test the path suffix against `.dll` and
`.exe`; they are mutually exclusive, so the file is appended at most
once. -/
def seeked (name : String) : Bool :=
  pathSuffix name == ".dll" || pathSuffix name == ".exe"

/-- The matching files directly inside one directory of the walk, paired
with the directory path (as segments below the walk root). -/
def filesHere (segs : List String) (entries : List FSEntry) :
    List (List String × String) :=
  entries.filterMap fun e =>
    match e with
    | .file n => if seeked n then some (segs, n) else none
    | .dir _ _ => none

/-- The recursive part of the `os.walk` loop: descend into each
subdirectory in order, skipping the denylisted names, and inside each
collect the matching files first and then recurse, exactly as the
top-down walk with in-place pruning of `directories[:]` does. -/
def walkList (segs : List String) : List FSEntry → List (List String × String)
  | [] => []
  | FSEntry.file _ :: rest => walkList segs rest
  | FSEntry.dir d ch :: rest =>
    (if d ∈ denylist then []
     else filesHere (segs ++ [d]) ch ++ walkList (segs ++ [d]) ch)
    ++ walkList segs rest

/-- Model of `_get_result_files`: glob `target/*toolchain*` and take the
first match (an empty match list raises `IndexError`); when a profile is
given the code calls `.joinpath` on the glob result, which is a Python
`str` and has no such attribute, raising `AttributeError`; otherwise walk
the matched entry (walking a plain file yields nothing) and return the
matching files. Returned paths are segment lists below the matched
output directory. -/
def get_result_files (tcName : String) (targetEntries : List FSEntry)
    (profile : Option String) :
    Except PyError (List (List String × String)) :=
  match targetEntries.filter (fun e => globStar tcName e.name) with
  | [] => Except.error PyError.indexError
  | e :: _ =>
    match profile with
    | some _ => Except.error PyError.attributeError
    | none =>
      match e with
      | FSEntry.file _ => Except.ok []
      | FSEntry.dir _ ch => Except.ok (filesHere [] ch ++ walkList [] ch)

/-! ## Concrete instances used by the witnesses -/

/-- A concrete world in which every build fails. -/
def wFail : World :=
  { status := fun _ => 200
    run := fun _ _ => { returncode := 101, stdout := "out", stderr := "err" }
    collect := fun _ => []
    destDir := ["dest"] }

/-- A concrete world whose probe always reports 404. -/
def w404 : World :=
  { status := fun _ => 404
    run := fun _ _ => { returncode := 0, stdout := "", stderr := "" }
    collect := fun p => p ++ ["out.dll"]
    destDir := ["dest"] }

/-- A concrete toolchain. -/
def tcEx : Toolchain :=
  { version := "1.70.0", toolchain_name := "x86_64-pc-windows-gnu" }

/-- A concrete crate whose feature list contains `full` among others. -/
def crateFull : Crate :=
  { name := "demo", version := "1.2.0",
    features := ["std", "full", "serde"],
    repository := "https://example.org/demo" }

/-- A concrete crate with an empty feature list. -/
def crateEmpty : Crate :=
  { name := "demo", version := "1.2.0", features := [],
    repository := "https://example.org/gone" }

/-- A concrete compilation context. -/
def ctxEx : CompilationCtx :=
  { template := [("profile", TomlVal.table [("opt-level", TomlVal.int 3)])],
    lib := true, profile := "release", env := [] }

/-- Concrete output tree: the matched triple directory holds one
artifact at top level and one inside a denylisted `deps` directory. -/
def entries7 : List FSEntry :=
  [FSEntry.dir "x86_64-pc-windows-gnu"
    [FSEntry.file "demo.dll",
     FSEntry.dir "deps" [FSEntry.file "hidden.dll"]]]

/-! ## Basic lemmas about the dict model -/

theorem dictLookup_set_self {α : Type} (d : List (String × α)) (k : String)
    (v : α) : dictLookup (dictSet d k v) k = some v := by
  induction d with
  | nil => simp [dictSet, dictLookup]
  | cons p rest ih =>
    by_cases h : p.1 = k
    · simp [dictSet, h, dictLookup]
    · simp [dictSet, h, dictLookup, ih]

theorem dictLookup_set_ne {α : Type} (d : List (String × α)) (k k' : String)
    (v : α) (h : k ≠ k') :
    dictLookup (dictSet d k v) k' = dictLookup d k' := by
  induction d with
  | nil => simp [dictSet, dictLookup, h]
  | cons p rest ih =>
    by_cases hp : p.1 = k
    · simp [dictSet, hp, dictLookup, h]
    · simp [dictSet, hp, dictLookup, ih]

theorem dictLookup_del_self {α : Type} (d : List (String × α)) (k : String) :
    dictLookup (dictDel d k) k = none := by
  induction d with
  | nil => simp [dictDel, dictLookup]
  | cons p rest ih =>
    by_cases hp : p.1 = k
    · simp [dictDel, hp, ih]
    · simp [dictDel, hp, dictLookup, ih]

theorem dictLookup_del_ne {α : Type} (d : List (String × α)) (k k' : String)
    (h : k ≠ k') : dictLookup (dictDel d k) k' = dictLookup d k' := by
  induction d with
  | nil => simp [dictDel]
  | cons p rest ih =>
    by_cases hp : p.1 = k
    · simp [dictDel, hp, dictLookup, ih, h]
    · simp [dictDel, hp, dictLookup, ih]

theorem dictLookup_mem {α : Type} {d : List (String × α)} {k : String}
    {v : α} (h : dictLookup d k = some v) : (k, v) ∈ d := by
  induction d with
  | nil => simp [dictLookup] at h
  | cons p rest ih =>
    obtain ⟨a, b⟩ := p
    by_cases hp : a = k
    · subst hp
      simp [dictLookup] at h
      simp [h]
    · simp [dictLookup, hp] at h
      exact List.mem_cons_of_mem _ (ih h)

/-! ## Lemmas about backslash stripping -/

theorem hasBS_stripBS (s : String) : hasBS (stripBS s) = false := by
  simp only [hasBS, stripBS, List.any_eq_false, List.mem_filter]
  intro c hc
  simpa using hc.2

theorem stripBS_ne (s k : String) (h : hasBS k = true) : stripBS s ≠ k := by
  intro he
  rw [← he] at h
  rw [hasBS_stripBS] at h
  exact Bool.false_ne_true h

/-! ## The feature-degradation retry (`_cargo_build`) -/

theorem cargo_attempts_tails (w : World) (tc : Toolchain) (cwd : List String)
    (pv : List String) :
    ∀ features : List String,
      cargo_attempts w tc cwd pv features =
        features.tails.take (cargo_attempts w tc cwd pv features).length ∧
      (cargo_attempts w tc cwd pv features).length ≤ features.length + 1 := by
  intro features
  induction features with
  | nil =>
    constructor <;> simp [cargo_attempts, cargo_build]
  | cons f rest ih =>
    by_cases h : (w.run cwd (build_args tc pv (f :: rest))).returncode = 0
    · constructor <;> simp [cargo_attempts, cargo_build, h]
    · have h1 : cargo_attempts w tc cwd pv (f :: rest) =
          (f :: rest) :: cargo_attempts w tc cwd pv rest := by
        simp [cargo_attempts, cargo_build, h]
      constructor
      · rw [h1, List.tails_cons]
        simp only [List.length_cons, List.take_succ_cons]
        rw [← ih.1]
      · rw [h1]
        simpa using Nat.succ_le_succ ih.2

theorem cargo_build_all_fail (w : World) (tc : Toolchain) (cwd : List String)
    (pv : List String)
    (hfail : ∀ l, (w.run cwd (build_args tc pv l)).returncode ≠ 0) :
    ∀ features : List String,
      cargo_attempts w tc cwd pv features = features.tails ∧
      (cargo_build w tc cwd pv features).2 = w.run cwd (build_args tc pv []) := by
  intro features
  induction features with
  | nil => simp [cargo_attempts, cargo_build, hfail []]
  | cons f rest ih =>
    have h := hfail (f :: rest)
    constructor
    · simp [cargo_attempts, cargo_build, h, List.tails_cons]
      exact ih.1
    · simp [cargo_build, h]
      exact ih.2

/-- C1: for every non-empty feature list, `_cargo_build` performs at most
`len(features) + 1` build attempts; the attempt sequence is an initial
segment of the successive tails of the feature list, so each retry is the
identical invocation with the first feature removed; and when every
attempt fails, the attempts run through all tails down to the empty
feature set, whose failing result (exit code, stdout and stderr) is
returned to the caller unchanged. -/
theorem C1_retry_bound (w : World) (tc : Toolchain) (cwd : List String)
    (pv : List String) (features : List String) (hne : features ≠ []) :
    (cargo_attempts w tc cwd pv features).length ≤ features.length + 1 ∧
    cargo_attempts w tc cwd pv features =
      features.tails.take (cargo_attempts w tc cwd pv features).length ∧
    ((∀ l, (w.run cwd (build_args tc pv l)).returncode ≠ 0) →
      cargo_attempts w tc cwd pv features = features.tails ∧
      (cargo_build w tc cwd pv features).2 =
        w.run cwd (build_args tc pv [])) :=
  ⟨(cargo_attempts_tails w tc cwd pv features).2,
   (cargo_attempts_tails w tc cwd pv features).1,
   fun hfail => cargo_build_all_fail w tc cwd pv hfail features⟩

/-- Witness for C1 at the concrete feature list `["serde"]` in a world
where every build fails. -/
theorem C1_retry_bound_witness :
    (cargo_attempts wFail tcEx [] [] ["serde"]).length ≤ 2 ∧
    cargo_attempts wFail tcEx [] [] ["serde"] =
      (["serde"] : List String).tails.take
        (cargo_attempts wFail tcEx [] [] ["serde"]).length ∧
    ((∀ l, (wFail.run [] (build_args tcEx [] l)).returncode ≠ 0) →
      cargo_attempts wFail tcEx [] [] ["serde"] =
        (["serde"] : List String).tails ∧
      (cargo_build wFail tcEx [] [] ["serde"]).2 =
        wFail.run [] (build_args tcEx [] [])) :=
  C1_retry_bound wFail tcEx [] [] ["serde"] (by decide)

/-! ## Orchestration theorems (`compile_crate`) -/

theorem cargo_attempts_nil (w : World) (tc : Toolchain) (cwd : List String)
    (pv : List String) : cargo_attempts w tc cwd pv [] = [[]] := by
  simp only [cargo_attempts, cargo_build]
  split <;> rfl

/-- C2: when the literal feature `full` occurs anywhere in the feature
sequence of the crate, `compile_crate` collapses the feature list before
compilation, and every build invocation it issues — the three auxiliary
ones (tests, benches, examples) and the primary one — receives exactly
the one-element feature list `["full"]`. -/
theorem C2_full_collapse (w : World) (tc : Toolchain) (ctx : CompilationCtx)
    (crate : Crate) (toml_path : List String)
    (h : crate.features.contains "full" = true) :
    ∀ bc ∈ (compile_crate w tc ctx crate toml_path).buildCalls,
      bc.2.1 = ["full"] := by
  intro bc hbc
  simp only [compile_crate, h, if_true] at hbc
  cases hrepo : setup_repo w crate with
  | none =>
    rw [hrepo] at hbc
    simp at hbc
    rw [hbc]
  | some rp =>
    rw [hrepo] at hbc
    simp [extra_verbs] at hbc
    rcases hbc with h1 | h1 | h1 | h1 <;> rw [h1]

/-- Witness for C2 on a concrete crate, context and world. -/
theorem C2_full_collapse_witness :
    ((compile_crate wFail tcEx ctxEx crateFull
        ["proj", "Cargo.toml"]).buildCalls.all
      fun bc => bc.2.1 == ["full"]) = true := by
  rw [List.all_eq_true]
  intro bc hbc
  exact beq_iff_eq.2
    (C2_full_collapse wFail tcEx ctxEx crateFull ["proj", "Cargo.toml"]
      (by decide) bc hbc)

/-- C6: when the repository probe returns status 404, `_setup_repo`
returns no source tree, and `compile_crate` performs no auxiliary build
call, patches exactly one manifest (the primary one), and — the feature
list being empty — issues exactly one build call and one cargo
invocation, collects only the primary project directory and returns
exactly the artifacts found there. -/
theorem C6_probe_404 (w : World) (tc : Toolchain) (ctx : CompilationCtx)
    (crate : Crate) (toml_path : List String)
    (h404 : w.status crate.repository = 404)
    (hf : crate.features = []) :
    setup_repo w crate = none ∧
    (compile_crate w tc ctx crate toml_path).repoResult = none ∧
    (compile_crate w tc ctx crate toml_path).patched =
      [(toml_path, lib_template_primary ctx)] ∧
    (compile_crate w tc ctx crate toml_path).buildCalls =
      [(toml_path.dropLast, [], ["--profile", profile_arg ctx])] ∧
    (compile_crate w tc ctx crate toml_path).runs =
      [(toml_path.dropLast,
        build_args tc ["--profile", profile_arg ctx] [])] ∧
    (compile_crate w tc ctx crate toml_path).collected =
      [toml_path.dropLast] ∧
    (compile_crate w tc ctx crate toml_path).results =
      w.collect toml_path.dropLast := by
  have hrepo : setup_repo w crate = none := by simp [setup_repo, h404]
  refine ⟨hrepo, ?_, ?_, ?_, ?_, ?_, ?_⟩ <;>
    simp [compile_crate, hrepo, hf, call_runs, cargo_attempts_nil]

/-- Witness for C6 on a concrete 404 world and feature-free crate. -/
theorem C6_probe_404_witness :
    setup_repo w404 crateEmpty = none ∧
    (compile_crate w404 tcEx ctxEx crateEmpty
        ["proj", "Cargo.toml"]).repoResult = none ∧
    (compile_crate w404 tcEx ctxEx crateEmpty ["proj", "Cargo.toml"]).patched =
      [(["proj", "Cargo.toml"], lib_template_primary ctxEx)] ∧
    (compile_crate w404 tcEx ctxEx crateEmpty
        ["proj", "Cargo.toml"]).buildCalls =
      [((["proj", "Cargo.toml"] : List String).dropLast, [],
        ["--profile", profile_arg ctxEx])] ∧
    (compile_crate w404 tcEx ctxEx crateEmpty ["proj", "Cargo.toml"]).runs =
      [((["proj", "Cargo.toml"] : List String).dropLast,
        build_args tcEx ["--profile", profile_arg ctxEx] [])] ∧
    (compile_crate w404 tcEx ctxEx crateEmpty
        ["proj", "Cargo.toml"]).collected =
      [(["proj", "Cargo.toml"] : List String).dropLast] ∧
    (compile_crate w404 tcEx ctxEx crateEmpty ["proj", "Cargo.toml"]).results =
      w404.collect (["proj", "Cargo.toml"] : List String).dropLast :=
  C6_probe_404 w404 tcEx ctxEx crateEmpty ["proj", "Cargo.toml"]
    (by rfl) (by rfl)

/-! ## Walk lemmas (`_get_result_files`) -/

theorem filesHere_mem {segs : List String} {entries : List FSEntry}
    {x : List String × String} (h : x ∈ filesHere segs entries) :
    seeked x.2 = true ∧ x.1 = segs := by
  simp only [filesHere, List.mem_filterMap] at h
  obtain ⟨e, -, he⟩ := h
  cases e with
  | file n =>
    by_cases hs : seeked n
    · simp only [if_pos hs] at he
      cases he
      exact ⟨hs, rfl⟩
    · simp [hs] at he
  | dir d ch => simp at he

theorem walkList_mem :
    ∀ (l : List FSEntry) (segs : List String) (x : List String × String),
      x ∈ walkList segs l →
      seeked x.2 = true ∧
        ∃ extra, x.1 = segs ++ extra ∧ ∀ s ∈ extra, s ∉ denylist
  | [], _, _ => by simp [walkList]
  | FSEntry.file n :: rest, segs, x => fun hx =>
      walkList_mem rest segs x (by simpa [walkList] using hx)
  | FSEntry.dir d ch :: rest, segs, x => fun hx => by
      simp only [walkList, List.mem_append] at hx
      rcases hx with h1 | h2
      · by_cases hd : d ∈ denylist
        · simp [hd] at h1
        · rw [if_neg hd] at h1
          rcases List.mem_append.1 h1 with hf | hw
          · obtain ⟨hs, hx1⟩ := filesHere_mem hf
            refine ⟨hs, [d], by simpa using hx1, ?_⟩
            intro s hsm
            rw [List.mem_singleton] at hsm
            rw [hsm]
            exact hd
          · obtain ⟨hs, extra, hx1, hcl⟩ := walkList_mem ch (segs ++ [d]) x hw
            refine ⟨hs, d :: extra, by rw [hx1]; simp, ?_⟩
            intro s hsm
            rcases List.mem_cons.1 hsm with h | h
            · rw [h]; exact hd
            · exact hcl s h
      · exact walkList_mem rest segs x h2

/-- C7: artifact collection never returns a file lying under a
subdirectory whose name is one of the three denylisted build-cache
names; such subdirectories are pruned during the walk. Paths are
reported as segment lists below the discovered output directory. -/
theorem C7_denylist_pruned (tc : String) (entries : List FSEntry)
    (res : List (List String × String))
    (h : get_result_files tc entries none = Except.ok res) :
    ∀ x ∈ res, ∀ s ∈ x.1, s ∉ denylist := by
  intro x hx s hs
  unfold get_result_files at h
  cases hfil : entries.filter (fun e => globStar tc e.name) with
  | nil =>
    rw [hfil] at h
    exact absurd h (by simp)
  | cons e rest =>
    rw [hfil] at h
    cases e with
    | file n =>
      simp only [Except.ok.injEq] at h
      rw [← h] at hx
      simp at hx
    | dir d ch =>
      simp only [Except.ok.injEq] at h
      rw [← h] at hx
      rcases List.mem_append.1 hx with h1 | h2
      · obtain ⟨-, hx1⟩ := filesHere_mem h1
        rw [hx1] at hs
        simp at hs
      · obtain ⟨-, extra, hx1, hcl⟩ := walkList_mem ch [] x h2
        rw [hx1] at hs
        simp only [List.nil_append] at hs
        exact hcl s hs

/-- Witness for C7: on the concrete tree the collection succeeds and its
result contains no denylisted path segment. -/
theorem C7_denylist_pruned_witness :
    (([(([] : List String), "demo.dll")]).all
      fun x => x.1.all fun s => !denylist.contains s) = true := by
  have hok : get_result_files "windows" entries7 none =
      Except.ok [([], "demo.dll")] := by
    have hg : entries7.filter (fun e => globStar "windows" e.name) =
        entries7 := rfl
    have hs : seeked "demo.dll" = true := rfl
    simp only [get_result_files]
    rw [hg]
    simp [entries7, walkList, filesHere, denylist, hs]
  have hmain := C7_denylist_pruned "windows" entries7 [([], "demo.dll")] hok
  rw [List.all_eq_true]
  intro x hx
  rw [List.all_eq_true]
  intro s hs
  simpa using hmain x hx s hs

/-- C8: when no entry beneath `target` matches the toolchain-triple glob
pattern, `_get_result_files` fails with the index error coming from
`[0]` on the empty glob result, instead of returning an empty list. -/
theorem C8_no_match (tc : String) (entries : List FSEntry)
    (profile : Option String)
    (h : ∀ e ∈ entries, globStar tc e.name = false) :
    get_result_files tc entries profile = Except.error PyError.indexError := by
  have hfil : entries.filter (fun e => globStar tc e.name) = [] := by
    rw [List.filter_eq_nil_iff]
    intro e he
    simp [h e he]
  simp [get_result_files, hfil]

/-- Witness for C8: a `target` directory whose only entry does not
contain the triple. -/
theorem C8_no_match_witness :
    get_result_files "x86_64-unknown-linux-musl"
      [FSEntry.dir "debug" [FSEntry.file "demo.dll"]] none =
      Except.error PyError.indexError :=
  C8_no_match "x86_64-unknown-linux-musl"
    [FSEntry.dir "debug" [FSEntry.file "demo.dll"]] none (by decide)

/-- C9 meets a code bug: `glob.glob` returns strings, so when a profile
is supplied the call `compile_dst.joinpath(profile)` raises
`AttributeError` instead of descending into the profile subdirectory;
the same tree with no profile is collected fine. -/
theorem C9_profile_bug :
    get_result_files "windows" entries7 (some "release") =
      Except.error PyError.attributeError ∧
    get_result_files "windows" entries7 none =
      Except.ok [([], "demo.dll")] := by
  have hg : entries7.filter (fun e => globStar "windows" e.name) =
      entries7 := rfl
  have hs : seeked "demo.dll" = true := rfl
  constructor
  · simp only [get_result_files]
    rw [hg]
    simp [entries7]
  · simp only [get_result_files]
    rw [hg]
    simp [entries7, walkList, filesHere, denylist, hs]

/-! ## The artifact extension filter (C10) -/

theorem rfindDot_none (cs : List Char) (h : ∀ c ∈ cs, c ≠ '.') :
    rfindDot cs = none := by
  induction cs with
  | nil => rfl
  | cons c rest ih =>
    simp only [rfindDot]
    rw [ih fun c hc => h c (List.mem_cons_of_mem _ hc)]
    simp [h c (List.mem_cons_self _ _)]

theorem pathSuffix_eq_none (n : String) (h : rfindDot n.data = none) :
    pathSuffix n = "" := by
  unfold pathSuffix
  rw [h]

theorem pathSuffix_eq_some (n : String) (i : Nat)
    (h : rfindDot n.data = some i) :
    pathSuffix n =
      if 0 < i ∧ i + 1 < n.data.length then ⟨n.data.drop i⟩ else "" := by
  unfold pathSuffix
  rw [h]

theorem pathSuffix_head_rev (n : String) (h : pathSuffix n ≠ "") :
    n.data.reverse.head? = (pathSuffix n).data.reverse.head? := by
  cases hfd : rfindDot n.data with
  | none =>
    rw [pathSuffix_eq_none n hfd] at h
    exact absurd rfl h
  | some i =>
    rw [pathSuffix_eq_some n i hfd] at h ⊢
    by_cases hcond : 0 < i ∧ i + 1 < n.data.length
    · rw [if_pos hcond] at h ⊢
      show n.data.reverse.head? = (n.data.drop i).reverse.head?
      have hne : n.data.drop i ≠ [] := by
        rw [ne_eq, List.drop_eq_nil_iff]
        omega
      obtain ⟨c, t, hct⟩ := List.exists_cons_of_ne_nil
        (fun he => hne (by simpa using congrArg List.reverse he) :
          (n.data.drop i).reverse ≠ [])
      conv_lhs => rw [← List.take_append_drop i n.data]
      rw [List.reverse_append, hct]
      simp
    · rw [if_neg hcond] at h
      exact absurd rfl h

theorem pathSuffix_ne_of_rev_head (n : String) (c : Char)
    (hrev : n.data.reverse.head? = some c) (s : String) (hse : s ≠ "")
    (hs : s.data.reverse.head? ≠ some c) : pathSuffix n ≠ s := by
  intro he
  by_cases hemp : pathSuffix n = ""
  · rw [hemp] at he
    exact hse he.symm
  · have h2 := pathSuffix_head_rev n hemp
    rw [he, hrev] at h2
    exact hs h2.symm

theorem endsDotSo_rev_head (n : String) (h : endsDotSo n = true) :
    n.data.reverse.head? = some 'o' := by
  unfold endsDotSo at h
  cases hm : n.data.reverse with
  | nil =>
    rw [hm] at h
    simp [leadMatch] at h
  | cons c rest =>
    rw [hm] at h
    simp only [leadMatch, Bool.and_eq_true, beq_iff_eq] at h
    rw [h.1]
    rfl

/-- C10: the artifact filter accepts a file name exactly when its path
suffix is `.dll` or `.exe`; every file returned by a successful
collection passes this filter; and consequently a name ending in `.so`
or containing no dot at all is never accepted. -/
theorem C10_extension_filter :
    (∀ n, seeked n = true ↔
      (pathSuffix n = ".dll" ∨ pathSuffix n = ".exe")) ∧
    (∀ (tc : String) (entries : List FSEntry)
        (res : List (List String × String)),
      get_result_files tc entries none = Except.ok res →
      ∀ x ∈ res, seeked x.2 = true) ∧
    (∀ n, endsDotSo n = true → seeked n = false) ∧
    (∀ n, n.data.all (fun c => c != '.') = true → seeked n = false) := by
  refine ⟨?_, ?_, ?_, ?_⟩
  · intro n
    simp [seeked]
  · intro tc entries res h x hx
    unfold get_result_files at h
    cases hfil : entries.filter (fun e => globStar tc e.name) with
    | nil =>
      rw [hfil] at h
      exact absurd h (by simp)
    | cons e rest =>
      rw [hfil] at h
      cases e with
      | file n =>
        simp only [Except.ok.injEq] at h
        rw [← h] at hx
        simp at hx
      | dir d ch =>
        simp only [Except.ok.injEq] at h
        rw [← h] at hx
        rcases List.mem_append.1 hx with h1 | h2
        · exact (filesHere_mem h1).1
        · exact (walkList_mem ch [] x h2).1
  · intro n h
    have hrev := endsDotSo_rev_head n h
    have h1 : pathSuffix n ≠ ".dll" :=
      pathSuffix_ne_of_rev_head n 'o' hrev ".dll" (by decide) (by decide)
    have h2 : pathSuffix n ≠ ".exe" :=
      pathSuffix_ne_of_rev_head n 'o' hrev ".exe" (by decide) (by decide)
    simp only [seeked, Bool.or_eq_false_iff, beq_eq_false_iff_ne, ne_eq]
    exact ⟨h1, h2⟩
  · intro n h
    have hsuf : pathSuffix n = "" := by
      apply pathSuffix_eq_none
      apply rfindDot_none
      intro c hc
      have := List.all_eq_true.1 h c hc
      simpa using this
    simp [seeked, hsuf]

/-- Witness for C10 at concrete names: a Unix shared library and an
extensionless executable are both rejected by the filter. -/
theorem C10_extension_filter_witness :
    seeked "libdemo.so" = false ∧ seeked "demo" = false :=
  ⟨C10_extension_filter.2.2.1 "libdemo.so" (by decide),
   C10_extension_filter.2.2.2 "demo" (by decide)⟩

/-! ## The no-std source patch (C4) -/

/-- C4 meets a code bug: `remove_no_std_from_project` collects directive
line indices from the content as first read, but `remove_line` re-reads
the file after each removal, so from the second removal on the recorded
indices are stale. On a file with two directive lines followed by
`keep`, the code removes the first directive and then — via the stale
index 1 — the line `keep`, leaving `["#![no_std]"]`; the claim demands
that exactly the directive lines disappear, which would leave
`["keep"]`. -/
theorem C4_stale_index_bug :
    remove_no_std_from_file ["#![no_std]", "#![no_std]", "keep"] =
      ["#![no_std]"] ∧
    remove_no_std_from_file ["#![no_std]", "#![no_std]", "keep"] ≠
      ["#![no_std]", "#![no_std]", "keep"].filter
        (fun l => !isNoStdLine l) := by
  constructor
  · rfl
  · intro h
    rw [show remove_no_std_from_file ["#![no_std]", "#![no_std]", "keep"] =
        ["#![no_std]"] from rfl] at h
    rw [show (["#![no_std]", "#![no_std]", "keep"].filter
        fun l => !isNoStdLine l) = ["keep"] from rfl] at h
    exact absurd (List.head_eq_of_cons_eq h) (by decide)

/-! ## The manifest merge (`setup_toml`) -/

theorem dictLookup_append {α : Type} (d e : List (String × α)) (k : String) :
    dictLookup (d ++ e) k =
      match dictLookup d k with
      | some v => some v
      | none => dictLookup e k := by
  induction d with
  | nil => simp [dictLookup]
  | cons p rest ih =>
    by_cases hp : p.1 = k <;> simp [dictLookup, hp, ih]

theorem mergeMap_lookup_none {α : Type} (M T : List (String × α))
    (k : String) (hM : dictLookup M k = none) :
    dictLookup (M.map fun p =>
      match dictLookup T p.1 with
      | some w => (p.1, w)
      | none => p) k = none := by
  induction M with
  | nil => rfl
  | cons p rest ih =>
    simp only [dictLookup] at hM
    by_cases hp : p.1 = k
    · rw [if_pos hp] at hM
      exact absurd hM (by simp)
    · rw [if_neg hp] at hM
      simp only [List.map_cons]
      cases dictLookup T p.1 <;> simp [dictLookup, hp, ih hM]

theorem mergeMap_lookup_some {α : Type} (M T : List (String × α))
    (k : String) (v : α) (hM : (dictLookup M k).isSome = true)
    (hT : dictLookup T k = some v) :
    dictLookup (M.map fun p =>
      match dictLookup T p.1 with
      | some w => (p.1, w)
      | none => p) k = some v := by
  induction M with
  | nil => simp [dictLookup] at hM
  | cons p rest ih =>
    by_cases hp : p.1 = k
    · simp only [List.map_cons]
      have hTp : dictLookup T p.1 = some v := by rw [hp, hT]
      rw [hTp]
      simp [dictLookup, hp]
    · simp only [dictLookup, if_neg hp] at hM
      simp only [List.map_cons]
      cases dictLookup T p.1 <;> simp [dictLookup, hp, ih hM]

theorem filter_lookup_of_pred {α : Type} (T : List (String × α))
    (pr : String × α → Bool) (k : String)
    (h : ∀ q ∈ T, q.1 = k → pr q = true) :
    dictLookup (T.filter pr) k = dictLookup T k := by
  induction T with
  | nil => rfl
  | cons q rest ih =>
    have ih2 := ih fun r hr => h r (List.mem_cons_of_mem _ hr)
    by_cases hq : q.1 = k
    · rw [List.filter_cons, h q (List.mem_cons_self _ _) hq]
      simp [dictLookup, hq]
    · cases hpr : pr q <;>
        simp [List.filter_cons, hpr, dictLookup, hq, ih2]

theorem dictMerge_lookup_right {α : Type} (M T : List (String × α))
    (k : String) (v : α) (hT : dictLookup T k = some v) :
    dictLookup (dictMerge M T) k = some v := by
  unfold dictMerge
  rw [dictLookup_append]
  cases hM : dictLookup M k with
  | some w =>
    rw [mergeMap_lookup_some M T k v (by rw [hM]; rfl) hT]
  | none =>
    rw [mergeMap_lookup_none M T k hM]
    rw [filter_lookup_of_pred T _ k fun q hq hqk => by rw [hqk, hM]; rfl]
    rw [hT]

theorem mergeMap_id {α : Type} (M T : List (String × α))
    (h : ∀ p ∈ M, dictLookup T p.1 = none) :
    (M.map fun p =>
      match dictLookup T p.1 with
      | some w => (p.1, w)
      | none => p) = M := by
  induction M with
  | nil => rfl
  | cons p rest ih =>
    simp only [List.map_cons]
    rw [h p (List.mem_cons_self _ _)]
    rw [ih fun q hq => h q (List.mem_cons_of_mem _ hq)]

theorem dictMerge_disjoint {α : Type} (M T : List (String × α))
    (h : disjointKeys M T = true) : dictMerge M T = M ++ T := by
  unfold disjointKeys at h
  rw [Bool.and_eq_true] at h
  unfold dictMerge
  rw [mergeMap_id M T fun p hp => by
    have := List.all_eq_true.1 h.1 p hp
    simpa [Option.isNone_iff_eq_none] using this]
  rw [List.filter_eq_self.2 fun q hq => List.all_eq_true.1 h.2 q hq]

theorem noNestedBS_spec (d : Dict) (h : noNestedBS d = true) :
    ∀ p ∈ d, ∀ t, p.2 = TomlVal.table t → ∀ q ∈ t, hasBS q.1 = false := by
  intro p hp t ht q hq
  unfold noNestedBS at h
  have h2 := List.all_eq_true.1 h p hp
  rw [ht] at h2
  have h3 := List.all_eq_true.1 h2 q hq
  simpa using h3

theorem sanitizeTable_id (t : List (String × TomlVal))
    (h : ∀ q ∈ t, hasBS q.1 = false) : sanitizeTable t = t := by
  unfold sanitizeTable
  rw [List.filter_eq_nil_iff.2 fun a ha => by simp [h a ha]]
  rfl

theorem sanitizeTop_id :
    ∀ d : Dict,
      (∀ p ∈ d, ∀ t, p.2 = TomlVal.table t → ∀ q ∈ t, hasBS q.1 = false) →
      sanitizeTop d = d
  | [], _ => rfl
  | (a, b) :: rest, h => by
    have hrest := sanitizeTop_id rest
      fun q hq => h q (List.mem_cons_of_mem _ hq)
    unfold sanitizeTop at hrest ⊢
    simp only [List.map_cons]
    rw [hrest]
    cases b with
    | table t =>
      show (a, TomlVal.table (sanitizeTable t)) :: rest =
        (a, TomlVal.table t) :: rest
      rw [sanitizeTable_id t
        (h (a, TomlVal.table t) (List.mem_cons_self _ _) t rfl)]
    | str s => rfl
    | int n => rfl
    | bool b => rfl
    | arr l => rfl

theorem setup_toml_disjoint (M T : Dict) (hd : disjointKeys M T = true)
    (hM : noNestedBS M = true) (hT : noNestedBS T = true) :
    setup_toml_dict M T = M ++ T := by
  unfold setup_toml_dict
  rw [dictMerge_disjoint M T hd]
  apply sanitizeTop_id
  intro p hp t ht q hq
  rcases List.mem_append.1 hp with h | h
  · exact noNestedBS_spec M hM p h t ht q hq
  · exact noNestedBS_spec T hT p h t ht q hq

/-- C3 as stated is false on the code: `setup_toml` also runs the
backslash sanitization pass, which alters the value bound to a top-level
key even when the template is empty and the key sets disjoint. Here the
manifest binds `package` to a table with the single key `a\b`; after
patching with the empty template the table key has become `ab`, so the
result is not `M ++ T` with every key bound to its original value. -/
theorem C3_counterexample :
    disjointKeys cexM3 ([] : Dict) = true ∧
    topTableKeys (cexM3 ++ ([] : Dict)) "package" = ["a\\b"] ∧
    topTableKeys (setup_toml_dict cexM3 []) "package" = ["ab"] :=
  ⟨rfl, rfl, rfl⟩

/-- C3 amended: the merge of `setup_toml` is a shallow top-level merge —
a key bound by the template is bound to the template's value in the
merged manifest, its nested mapping replaced wholesale — and, provided
no second-level table key contains a backslash (so the sanitization pass
is the identity), patching a manifest with a template of disjoint key
set yields exactly `M ++ T`: the keys of `M` then the keys of `T`, each
bound to its original value, none lost. -/
theorem C3_shallow_merge_amended :
    (∀ (M T : Dict) (k : String) (v : TomlVal),
      dictLookup T k = some v → dictLookup (dictMerge M T) k = some v) ∧
    (∀ M T : Dict, disjointKeys M T = true → noNestedBS M = true →
      noNestedBS T = true → setup_toml_dict M T = M ++ T) :=
  ⟨fun M T k v hT => dictMerge_lookup_right M T k v hT,
   fun M T hd hM hT => setup_toml_disjoint M T hd hM hT⟩

/-- Witness for the amended C3: a template key overwrites the manifest
binding, and a disjoint, backslash-free merge is the exact union. -/
theorem C3_shallow_merge_amended_witness :
    dictLookup (dictMerge [("profile", TomlVal.int 0)]
      [("profile", TomlVal.int 3)]) "profile" = some (TomlVal.int 3) ∧
    setup_toml_dict [("package", TomlVal.str "m")] [("lib", TomlVal.str "t")] =
      [("package", TomlVal.str "m"), ("lib", TomlVal.str "t")] :=
  ⟨C3_shallow_merge_amended.1 _ _ _ _ rfl,
   C3_shallow_merge_amended.2 _ _ rfl rfl rfl⟩

/-! ## The backslash key sanitization (C5) -/

theorem ne_of_hasBS {a b : String} (ha : hasBS a = true)
    (hb : hasBS b = false) : a ≠ b := by
  intro h
  rw [h, hb] at ha
  exact Bool.false_ne_true ha

theorem sanFold_lookup_bs_preserved :
    ∀ (qs : List (String × TomlVal)) (cur : List (String × TomlVal))
      (k : String), hasBS k = true → (∀ q ∈ qs, q.1 ≠ k) →
      dictLookup (qs.foldl sanStep cur) k = dictLookup cur k
  | [], _, _, _, _ => rfl
  | q :: rest, cur, k, hbs, hq => by
    rw [List.foldl_cons]
    rw [sanFold_lookup_bs_preserved rest (sanStep cur q) k hbs
      fun r hr => hq r (List.mem_cons_of_mem _ hr)]
    unfold sanStep
    cases hl : dictLookup cur q.1 with
    | none => rfl
    | some val =>
      rw [dictLookup_set_ne _ _ _ _ (stripBS_ne q.1 k hbs)]
      rw [dictLookup_del_ne _ _ _ (hq q (List.mem_cons_self _ _))]

theorem sanFold_lookup_nobs_preserved :
    ∀ (qs : List (String × TomlVal)) (cur : List (String × TomlVal))
      (s : String), hasBS s = false →
      (∀ q ∈ qs, hasBS q.1 = true ∧ stripBS q.1 ≠ s) →
      dictLookup (qs.foldl sanStep cur) s = dictLookup cur s
  | [], _, _, _, _ => rfl
  | q :: rest, cur, s, hnb, hq => by
    rw [List.foldl_cons]
    rw [sanFold_lookup_nobs_preserved rest (sanStep cur q) s hnb
      fun r hr => hq r (List.mem_cons_of_mem _ hr)]
    unfold sanStep
    cases hl : dictLookup cur q.1 with
    | none => rfl
    | some val =>
      rw [dictLookup_set_ne _ _ _ _ (hq q (List.mem_cons_self _ _)).2]
      rw [dictLookup_del_ne _ _ _
        (ne_of_hasBS (hq q (List.mem_cons_self _ _)).1 hnb)]

theorem sanFold_lookup_none :
    ∀ (qs : List (String × TomlVal)) (cur : List (String × TomlVal))
      (k : String), hasBS k = true → dictLookup cur k = none →
      dictLookup (qs.foldl sanStep cur) k = none
  | [], _, _, _, h => h
  | q :: rest, cur, k, hbs, h => by
    rw [List.foldl_cons]
    apply sanFold_lookup_none rest _ k hbs
    unfold sanStep
    cases hl : dictLookup cur q.1 with
    | none => exact h
    | some val =>
      rw [dictLookup_set_ne _ _ _ _ (stripBS_ne q.1 k hbs)]
      by_cases hqk : q.1 = k
      · rw [hqk]
        exact dictLookup_del_self _ _
      · rw [dictLookup_del_ne _ _ _ hqk]
        exact h

theorem sanitizeTable_lookup (t : List (String × TomlVal)) (k : String)
    (v : TomlVal) (hnd : (t.map Prod.fst).Nodup)
    (hinj : ((t.filter fun p => hasBS p.1).map fun p => stripBS p.1).Nodup)
    (hk : dictLookup t k = some v) (hbs : hasBS k = true) :
    dictLookup (sanitizeTable t) (stripBS k) = some v ∧
    dictLookup (sanitizeTable t) k = none := by
  have hmem : (k, v) ∈ t := dictLookup_mem hk
  have hmemf : (k, v) ∈ t.filter (fun p => hasBS p.1) :=
    List.mem_filter.2 ⟨hmem, hbs⟩
  obtain ⟨l1, l2, hsplit⟩ := List.append_of_mem hmemf
  have hndf : ((t.filter fun p => hasBS p.1).map Prod.fst).Nodup :=
    hnd.sublist ((List.filter_sublist t).map Prod.fst)
  rw [hsplit] at hndf hinj
  rw [List.map_append, List.map_cons] at hndf hinj
  have hl1 : ∀ q ∈ l1, q.1 ≠ k := by
    intro q hq he
    have : (k : String) ∈ l1.map Prod.fst := by
      rw [← he]
      exact List.mem_map_of_mem _ hq
    exact (List.disjoint_of_nodup_append hndf) this
      (List.mem_cons_self _ _)
  have hl2 : ∀ q ∈ l2, q.1 ≠ k := by
    intro q hq he
    have hk2 : (k : String) ∈ l2.map Prod.fst := by
      rw [← he]
      exact List.mem_map_of_mem _ hq
    have := (List.nodup_append.1 hndf).2.1
    rw [List.nodup_cons] at this
    exact this.1 hk2
  have hbsmem : ∀ q, q ∈ l1 ∨ q ∈ l2 → hasBS q.1 = true := by
    intro q hq
    have hqf : q ∈ t.filter (fun p => hasBS p.1) := by
      rw [hsplit]
      rcases hq with h | h
      · exact List.mem_append.2 (Or.inl h)
      · exact List.mem_append.2 (Or.inr (List.mem_cons_of_mem _ h))
    exact (List.mem_filter.1 hqf).2
  have hinj2 : ∀ q ∈ l2, stripBS q.1 ≠ stripBS k := by
    intro q hq he
    have hm : stripBS k ∈ l2.map fun p => stripBS p.1 := by
      rw [← he]
      exact List.mem_map_of_mem _ hq
    have := (List.nodup_append.1 hinj).2.1
    rw [List.nodup_cons] at this
    exact this.1 hm
  have hfold : sanitizeTable t =
      l2.foldl sanStep (sanStep (l1.foldl sanStep t) (k, v)) := by
    unfold sanitizeTable
    rw [hsplit, List.foldl_append, List.foldl_cons]
  have h1 : dictLookup (l1.foldl sanStep t) k = some v := by
    rw [sanFold_lookup_bs_preserved l1 t k hbs hl1]
    exact hk
  have h1p : dictLookup (l1.foldl sanStep t) (k, v).1 = some v := h1
  have hstep : sanStep (l1.foldl sanStep t) (k, v) =
      dictSet (dictDel (l1.foldl sanStep t) k) (stripBS k) v := by
    show (match dictLookup (l1.foldl sanStep t) (k, v).1 with
      | some val => dictSet (dictDel (l1.foldl sanStep t) (k, v).1)
          (stripBS (k, v).1) val
      | none => l1.foldl sanStep t) =
      dictSet (dictDel (l1.foldl sanStep t) k) (stripBS k) v
    rw [h1p]
  constructor
  · rw [hfold, hstep]
    rw [sanFold_lookup_nobs_preserved l2 _ (stripBS k) (hasBS_stripBS k)
      fun q hq => ⟨hbsmem q (Or.inr hq), hinj2 q hq⟩]
    exact dictLookup_set_self _ _ _
  · rw [hfold, hstep]
    apply sanFold_lookup_none l2 _ k hbs
    rw [dictLookup_set_ne _ _ _ _ (stripBS_ne k k hbs)]
    exact dictLookup_del_self _ _

theorem dictLookup_sanitizeTop :
    ∀ (d : Dict) (x : String) (t : List (String × TomlVal)),
      dictLookup d x = some (TomlVal.table t) →
      dictLookup (sanitizeTop d) x =
        some (TomlVal.table (sanitizeTable t))
  | [], x, t, h => by simp [dictLookup] at h
  | (a, b) :: rest, x, t, h => by
    by_cases hp : a = x
    · subst hp
      have hb : b = TomlVal.table t := by
        simpa [dictLookup] using h
      subst hb
      show dictLookup ((a, TomlVal.table (sanitizeTable t)) ::
        sanitizeTop rest) a = some (TomlVal.table (sanitizeTable t))
      simp [dictLookup]
    · have h2 : dictLookup rest x = some (TomlVal.table t) := by
        simpa [dictLookup, hp] using h
      have ih := dictLookup_sanitizeTop rest x t h2
      cases b <;>
        simpa [sanitizeTop, List.map_cons, dictLookup, hp] using ih

/-- C5 as stated is false on the code: the sanitization pass of
`setup_toml` only rewrites keys of second-level tables, so a top-level
manifest key containing a backslash is left untouched — it is not
renamed to its backslash-free form, contradicting `regardless of where
in the manifest the key occurs`. -/
theorem C5_counterexample :
    hasBS "a\\b" = true ∧
    setup_toml_dict cexM5 [] = [("a\\b", TomlVal.str "v")] ∧
    (setup_toml_dict cexM5 []).map Prod.fst = ["a\\b"] :=
  ⟨rfl, rfl, rfl⟩

/-- C5 amended: after patching, every key of a second-level table (a
table bound to a top-level key of the merged manifest) that contains a
backslash is renamed by removing the backslashes, with its value
preserved and the original key gone — provided the table's keys are
distinct and no two of its backslash keys collapse to the same sanitized
name. Keys at the top level (or nested deeper than the second level) are
not normalized. -/
theorem C5_key_sanitization_amended (M T : Dict) (x k : String)
    (t : List (String × TomlVal)) (v : TomlVal)
    (hx : dictLookup (dictMerge M T) x = some (TomlVal.table t))
    (hnd : (t.map Prod.fst).Nodup)
    (hinj : ((t.filter fun p => hasBS p.1).map fun p => stripBS p.1).Nodup)
    (hk : dictLookup t k = some v) (hbs : hasBS k = true) :
    dictLookup (setup_toml_dict M T) x =
      some (TomlVal.table (sanitizeTable t)) ∧
    dictLookup (sanitizeTable t) (stripBS k) = some v ∧
    dictLookup (sanitizeTable t) k = none := by
  have hmain := sanitizeTable_lookup t k v hnd hinj hk hbs
  exact ⟨dictLookup_sanitizeTop (dictMerge M T) x t hx, hmain.1, hmain.2⟩

/-- Witness for the amended C5 on the concrete manifest `mEx`: the
second-level key `a\b` of the table under `dependencies` is renamed to
`ab`, its value preserved and the original key gone. -/
theorem C5_key_sanitization_amended_witness :
    dictLookup (setup_toml_dict mEx []) "dependencies" =
      some (TomlVal.table (sanitizeTable tEx)) ∧
    dictLookup (sanitizeTable tEx) (stripBS "a\\b") =
      some (TomlVal.str "1") ∧
    dictLookup (sanitizeTable tEx) "a\\b" = none :=
  C5_key_sanitization_amended mEx [] "dependencies" "a\\b" tEx
    (TomlVal.str "1") (by rfl) (by decide) (by decide) (by rfl) (by rfl)

end RustBinInfo
